import Mathlib

/-!
Verification of the position-aggregation engine of
`src/components/PortfolioManagerPAI.tsx` (personal portfolio tracker).

Modelling conventions for the shallow embedding:

* JavaScript numbers are modelled as exact rationals (`ℚ`).  The single
  place where `NaN` is observable for the properties studied here is the
  CSV importer, where `Number(...)` applied to a non-empty non-numeric
  string yields `NaN`; there the parsed numeric fields are modelled as
  `Option ℚ`, `none` standing for `NaN`.
* ISO date strings that the code compares through `new Date(...)` are
  modelled as integer timestamps (`Int`); the comparison order is
  preserved.
* `localeCompare` ordering of the output list is modelled by code-point
  string order via an insertion sort; every property proved below is
  invariant under permutation of the output, so the exact collation does
  not matter.
* `Math.random`-based `uid()` is modelled by the constant `""` (no claim
  concerns generated ids), and `todayISO()` is passed to the CSV importer
  as an explicit `today` argument since it reads the clock.
-/

/-- The `Transaction` record (`type` field: `"BUY" | "SELL"`). -/
inductive TxType
  | BUY
  | SELL
  deriving DecidableEq, Repr

structure Transaction where
  id : String
  date : Int
  ticker : String
  type : TxType
  qty : ℚ
  price : ℚ
  fees : Option ℚ
  deriving DecidableEq, Repr

/-- The `PriceNow` record: a manually entered quote. -/
structure PriceNow where
  ticker : String
  price : ℚ
  updatedAt : String
  deriving DecidableEq, Repr

/-- The `Trigger` record with its three optional thresholds. -/
structure Trigger where
  ticker : String
  buyPrice : Option ℚ := none
  sellPrice : Option ℚ := none
  trailingStopPct : Option ℚ := none
  note : Option String := none
  deriving DecidableEq, Repr

inductive DivType
  | ON
  | PN
  | UNIT
  | BDR
  | ETF
  | OUTRO
  deriving DecidableEq, Repr

structure DividendEntry where
  id : String
  date : Int
  ticker : String
  type : DivType
  valuePerShare : ℚ
  note : Option String := none
  deriving DecidableEq, Repr

structure HistoryPoint where
  date : String
  totalValue : ℚ
  deriving DecidableEq, Repr

structure PortfolioData where
  id : String
  name : String
  baseCurrency : String
  transactions : List Transaction
  prices : List PriceNow
  triggers : List Trigger
  dividends : List DividendEntry
  history : List HistoryPoint
  deriving DecidableEq, Repr

inductive Signal
  | BUY
  | SELL
  | HOLD
  | STOP
  deriving DecidableEq, Repr

/-- Derived `Position` record. -/
structure Position where
  ticker : String
  qty : ℚ
  invested : ℚ
  avgPrice : ℚ
  lastPrice : ℚ
  mktValue : ℚ
  pl : ℚ
  plPct : ℚ
  divsTotal : ℚ
  divYieldOnCost : ℚ
  signal : Signal
  trigger : Option Trigger
  deriving DecidableEq, Repr

/-- One step of the per-ticker cost-basis fold in `aggregatePositions`
(lines 123–135 of the source): state is the running `(qty, cost)` pair. -/
def applyTx (acc : ℚ × ℚ) (t : Transaction) : ℚ × ℚ :=
  let qty := acc.1
  let cost := acc.2
  let fees := t.fees.getD 0
  match t.type with
  | TxType.BUY => (qty + t.qty, cost + t.qty * t.price + fees)
  | TxType.SELL =>
      let avg := if qty > 0 then cost / qty else 0
      (qty - t.qty, cost - avg * t.qty + fees)

/-- The whole per-ticker fold, started from `qty = 0`, `cost = 0`. -/
def foldTx (list : List Transaction) : ℚ × ℚ :=
  list.foldl applyTx (0, 0)

/-- The function `shareCountAtDate` (source lines 199–207): signed share count of a
ticker over the transactions dated on-or-before `dateISO`, clamped at 0. -/
def shareCountAtDate (transactions : List Transaction) (ticker : String) (dateISO : Int) : ℚ :=
  let q := transactions.foldl
    (fun q t =>
      if t.ticker != ticker then q
      else if t.date ≤ dateISO then
        q + (match t.type with
             | TxType.BUY => t.qty
             | TxType.SELL => -t.qty)
      else q)
    0
  max q 0

/-- The signed quantity of a transaction (`+qty` for BUY, `-qty` for SELL). -/
def signedQty (t : Transaction) : ℚ :=
  match t.type with
  | TxType.BUY => t.qty
  | TxType.SELL => -t.qty

/-- Model of `new Map(p.prices.map(x => [x.ticker, x.price])).get(ticker) || 0`:
the `Map` constructor keeps the last entry per key; absent or `0` gives `0`. -/
def priceLookup (prices : List PriceNow) (ticker : String) : ℚ :=
  match prices.reverse.find? (fun x => x.ticker == ticker) with
  | some x => x.price
  | none => 0

/-- Model of `trigMap.get(ticker)`: last trigger stored for the ticker, if any. -/
def trigLookup (triggers : List Trigger) (ticker : String) : Option Trigger :=
  triggers.reverse.find? (fun x => x.ticker == ticker)

/-- Per-ticker dividend total (`divByTicker`, source lines 110–115). -/
def divTotal (p : PortfolioData) (ticker : String) : ℚ :=
  ((p.dividends.filter (fun d => d.ticker == ticker)).map
    (fun d => shareCountAtDate p.transactions d.ticker d.date * d.valuePerShare)).sum

/-- Signal derivation for a ticker that has transactions
(source lines 146–154): sequential overrides, `!= null` threshold tests. -/
def signalFor (otr : Option Trigger) (lastPrice plPct : ℚ) : Signal :=
  match otr with
  | none => Signal.HOLD
  | some tr =>
    let s0 : Signal := Signal.HOLD
    let s1 := match tr.buyPrice with
      | some bp => if lastPrice > 0 ∧ lastPrice ≤ bp then Signal.BUY else s0
      | none => s0
    let s2 := match tr.sellPrice with
      | some sp => if lastPrice > 0 ∧ lastPrice ≥ sp then Signal.SELL else s1
      | none => s1
    match tr.trailingStopPct with
      | some ts => if ts > 0 ∧ lastPrice > 0 ∧ plPct ≤ -ts then Signal.STOP else s2
      | none => s2

/-- JavaScript truthiness of an optional number (`undefined` and `0` are
falsy; `NaN` does not arise in the rational model). -/
def truthy : Option ℚ → Bool
  | none => false
  | some x => x != 0

/-- Signal of a synthesized quote-only position (source lines 187–189):
truthiness tests on the thresholds, no `lastPrice > 0` guard, no stop. -/
def quoteSignal (otr : Option Trigger) (price : ℚ) : Signal :=
  let bp := otr.bind Trigger.buyPrice
  let sp := otr.bind Trigger.sellPrice
  if truthy bp ∧ price ≤ bp.getD 0 then Signal.BUY
  else if truthy sp ∧ price ≥ sp.getD 0 then Signal.SELL
  else Signal.HOLD

/-- The `Position` built for a ticker that has transactions
(source lines 119–169). -/
def mkPosition (p : PortfolioData) (ticker : String) : Position :=
  let list := p.transactions.filter (fun t => t.ticker == ticker)
  let qty := (foldTx list).1
  let cost := (foldTx list).2
  let avgPrice := if qty > 0 then cost / max qty 1 else 0
  let lastPrice := priceLookup p.prices ticker
  let mktValue := qty * lastPrice
  let pl := mktValue - cost
  let plPct := if cost > 0 then pl / cost * 100 else 0
  let divs := divTotal p ticker
  let dyOnCost := if cost > 0 then divs / cost else 0
  let tr := trigLookup p.triggers ticker
  { ticker := ticker
    qty := qty
    invested := cost
    avgPrice := avgPrice
    lastPrice := lastPrice
    mktValue := mktValue
    pl := pl
    plPct := plPct
    divsTotal := divs
    divYieldOnCost := dyOnCost
    signal := signalFor tr lastPrice plPct
    trigger := tr }

/-- The synthesized zero position for a quote with no transactions
(source lines 173–193); the trigger is looked up with `triggers.find`
(first match), unlike the `trigMap` used for transaction tickers. -/
def quotePosition (p : PortfolioData) (pr : PriceNow) : Position :=
  let tr := p.triggers.find? (fun t => t.ticker == pr.ticker)
  { ticker := pr.ticker
    qty := 0
    invested := 0
    avgPrice := 0
    lastPrice := pr.price
    mktValue := 0
    pl := 0
    plPct := 0
    divsTotal := 0
    divYieldOnCost := 0
    signal := quoteSignal tr pr.price
    trigger := tr }

/-- Distinct keys in first-appearance order: the iteration order of the
`txByTicker` `Map` built on source lines 100–104. -/
def dedupFirst : List String → List String
  | [] => []
  | x :: xs => x :: (dedupFirst xs).filter (fun y => y != x)

/-- The tickers of `txByTicker`, in `Map` insertion order. -/
def txTickers (transactions : List Transaction) : List String :=
  dedupFirst (transactions.map Transaction.ticker)

/-- The second loop of `aggregatePositions` (source lines 173–193):
append a zero position for each quote whose ticker is not yet present. -/
def quoteFold (p : PortfolioData) (prices : List PriceNow) (pos : List Position) : List Position :=
  prices.foldl
    (fun pos pr =>
      if pos.any (fun x => x.ticker == pr.ticker) then pos
      else pos ++ [quotePosition p pr])
    pos

/-- Insert into a ticker-sorted list of positions. -/
def insertSorted (x : Position) : List Position → List Position
  | [] => [x]
  | y :: ys => if x.ticker ≤ y.ticker then x :: y :: ys else y :: insertSorted x ys

/-- The final `positions.sort((a,b) => a.ticker.localeCompare(b.ticker))`,
modelled as a stable insertion sort on code-point string order. -/
def sortByTicker : List Position → List Position
  | [] => []
  | x :: xs => insertSorted x (sortByTicker xs)

/-- The function `aggregatePositions` (source lines 99–196). -/
def aggregatePositions (p : PortfolioData) : List Position :=
  sortByTicker (quoteFold p p.prices ((txTickers p.transactions).map (mkPosition p)))

/-- The function `upsert` (source lines 247–253). -/
def upsert {α : Type} (arr : List α) (pred : α → Bool) (next : α) : List α :=
  match arr.findIdx? pred with
  | none => arr ++ [next]
  | some i => arr.set i next

/-- The price-list update performed by `setPrice` (source lines 435–445)
on the current portfolio: upsert keyed on the ticker. -/
def setPriceList (prices : List PriceNow) (ticker : String) (price : ℚ) (updatedAt : String) : List PriceNow :=
  upsert prices (fun x => x.ticker == ticker) ⟨ticker, price, updatedAt⟩

/-! The CSV importer works on JavaScript strings.  It is modelled at the
character level (`List Char` is the character sequence of the string)
because Lean's built-in `String` primitives are not kernel-reducible, and
the importer's behaviour must be evaluable on concrete inputs. -/

abbrev JsString := List Char

/-- JS `String.prototype.split(sep)` for a one-character separator:
`"" ↦ [""]`, separators at the ends produce empty fields. -/
def splitOnChar (sep : Char) : JsString → List JsString
  | [] => [[]]
  | c :: rest =>
    let r := splitOnChar sep rest
    if c = sep then [] :: r
    else
      match r with
      | [] => [[c]]
      | g :: gs => (c :: g) :: gs

/-- JS `String.prototype.trim()`: strip leading and trailing whitespace
(which includes `\r`, so splitting on `\n` plus `trim` models the
`/\r?\n/` row split of the source). -/
def trimChars (s : JsString) : JsString :=
  ((s.dropWhile Char.isWhitespace).reverse.dropWhile Char.isWhitespace).reverse

def toLowerChars (s : JsString) : JsString :=
  s.map Char.toLower

def toUpperChars (s : JsString) : JsString :=
  s.map Char.toUpper

/-- Digits of a numeral to a natural number; `none` on a non-digit or on
the empty list. -/
def parseNatDigits (s : List Char) : Option Nat :=
  match s with
  | [] => none
  | _ =>
    s.foldl
      (fun acc c =>
        match acc with
        | none => none
        | some n => if c.isDigit then some (n * 10 + (c.toNat - 48)) else none)
      (some 0)

/-- Unsigned decimal numeral, with an optional fractional part. -/
def parseUnsigned (s : JsString) : Option ℚ :=
  match splitOnChar '.' s with
  | [intPart] => (parseNatDigits intPart).map (fun n => (n : ℚ))
  | [intPart, fracPart] =>
    if intPart = [] ∧ fracPart = [] then none
    else
      match (if intPart = [] then some 0 else parseNatDigits intPart),
            (if fracPart = [] then some 0 else parseNatDigits fracPart) with
      | some i, some f => some ((i : ℚ) + (f : ℚ) / ((10 : ℚ) ^ fracPart.length))
      | _, _ => none
  | _ => none

/-- JavaScript `Number(s)` on a string, in the rational model: whitespace
trimmed, empty means `0`, plain signed decimal numerals parse, anything
else is `NaN` (`none`).  Exotic numeric syntaxes (exponents, hex) are
outside the inputs exercised by the claims. -/
def jsNumber (s : JsString) : Option ℚ :=
  match trimChars s with
  | [] => some 0
  | '-' :: rest => (parseUnsigned rest).map Neg.neg
  | '+' :: rest => parseUnsigned rest
  | t => parseUnsigned t

/-- Model of `Number(parts[i] || 0)`: a missing cell or the empty string is falsy
and gives `0`; any other string goes through `Number`. -/
def fieldOr0 (parts : List JsString) (i : Option Nat) : Option ℚ :=
  match i.bind (fun j => parts[j]?) with
  | none => some 0
  | some s => if s = [] then some 0 else jsNumber s

/-- A transaction as produced by the CSV importer: the date is still a
raw string and the numeric fields may be `NaN` (`none`). -/
structure CsvTransaction where
  id : JsString
  date : JsString
  ticker : JsString
  type : TxType
  qty : Option ℚ
  price : Option ℚ
  fees : Option ℚ
  deriving DecidableEq, Repr

/-- The importer `csvToTransactions` (source lines 210–235); `today` stands for the
impure `todayISO()`. -/
def csvToTransactions (csv : String) (today : JsString) : List CsvTransaction :=
  let rows := ((splitOnChar '\n' csv.data).map trimChars).filter (fun r => r != [])
  match rows with
  | [] => []
  | header :: body =>
    let cols := splitOnChar ',' (toLowerChars header)
    let idDate := cols.findIdx? (fun h => trimChars h == "date".data)
    let idTick := cols.findIdx? (fun h => trimChars h == "ticker".data)
    let idType := cols.findIdx? (fun h => trimChars h == "type".data)
    let idQty := cols.findIdx? (fun h => trimChars h == "qty".data)
    let idPrice := cols.findIdx? (fun h => trimChars h == "price".data)
    let idFees := cols.findIdx? (fun h => trimChars h == "fees".data)
    body.filterMap
      (fun r =>
        let parts := splitOnChar ',' r
        let dateRaw := (idDate.bind (fun i => parts[i]?)).getD []
        let date := if trimChars dateRaw == [] then today else trimChars dateRaw
        let ticker := toUpperChars (trimChars ((idTick.bind (fun i => parts[i]?)).getD []))
        let ty := if toUpperChars (trimChars ((idType.bind (fun i => parts[i]?)).getD []))
                     == "SELL".data
                  then TxType.SELL else TxType.BUY
        let qty := fieldOr0 parts idQty
        let price := fieldOr0 parts idPrice
        let fees := match idFees with
          | none => some (0 : ℚ)
          | some i => fieldOr0 parts (some i)
        if ticker == [] then none
        else some { id := [], date := date, ticker := ticker, type := ty,
                    qty := qty, price := price, fees := fees })

/-! ### Helper lemmas about the cost-basis fold -/

theorem applyTx_buy (acc : ℚ × ℚ) (t : Transaction) (h : t.type = TxType.BUY) :
    applyTx acc t = (acc.1 + t.qty, acc.2 + t.qty * t.price + t.fees.getD 0) := by
  simp [applyTx, h]

theorem applyTx_sell (acc : ℚ × ℚ) (t : Transaction) (h : t.type = TxType.SELL) :
    applyTx acc t =
      (acc.1 - t.qty,
       acc.2 - (if acc.1 > 0 then acc.2 / acc.1 else 0) * t.qty + t.fees.getD 0) := by
  simp [applyTx, h]

theorem foldl_applyTx_buyOnly (l : List Transaction) (q c : ℚ)
    (h : ∀ t ∈ l, t.type = TxType.BUY) :
    l.foldl applyTx (q, c) =
      (q + (l.map Transaction.qty).sum,
       c + (l.map (fun t => t.qty * t.price + t.fees.getD 0)).sum) := by
  induction l generalizing q c with
  | nil => simp
  | cons t ts ih =>
    have ht : t.type = TxType.BUY := h t (List.mem_cons_self t ts)
    have hts : ∀ t' ∈ ts, t'.type = TxType.BUY := fun t' h' => h t' (List.mem_cons_of_mem _ h')
    rw [List.foldl_cons, applyTx_buy _ _ ht, ih _ _ hts]
    simp only [List.map_cons, List.sum_cons, Prod.mk.injEq]
    constructor <;> ring

theorem foldTx_buyOnly (l : List Transaction) (h : ∀ t ∈ l, t.type = TxType.BUY) :
    foldTx l = ((l.map Transaction.qty).sum,
                (l.map (fun t => t.qty * t.price + t.fees.getD 0)).sum) := by
  rw [foldTx, foldl_applyTx_buyOnly l 0 0 h]
  simp

/-! ### Helper lemmas about `shareCountAtDate` -/

/-- The signed share total of a ticker over the transactions dated
on-or-before `d` (the clamp-free core of `shareCountAtDate`). -/
def signedSumUpTo (txs : List Transaction) (tk : String) (d : Int) : ℚ :=
  ((txs.filter (fun t => t.ticker == tk && decide (t.date ≤ d))).map signedQty).sum

theorem shareCount_foldl_eq (txs : List Transaction) (tk : String) (d : Int) (q : ℚ) :
    txs.foldl
      (fun q t =>
        if t.ticker != tk then q
        else if t.date ≤ d then
          q + (match t.type with
               | TxType.BUY => t.qty
               | TxType.SELL => -t.qty)
        else q)
      q
      = q + signedSumUpTo txs tk d := by
  induction txs generalizing q with
  | nil => simp [signedSumUpTo]
  | cons t ts ih =>
    by_cases h1 : t.ticker = tk
    · by_cases h2 : t.date ≤ d
      · simp only [List.foldl_cons]
        rw [if_neg (by simp [h1]), if_pos h2, ih]
        simp only [signedSumUpTo, List.filter_cons]
        rw [if_pos (by simp [h1, h2])]
        simp only [List.map_cons, List.sum_cons, signedQty]
        ring
      · simp only [List.foldl_cons]
        rw [if_neg (by simp [h1]), if_neg h2, ih]
        simp only [signedSumUpTo, List.filter_cons]
        rw [if_neg (by simp [h2])]
    · simp only [List.foldl_cons]
      rw [if_pos (by simp [h1]), ih]
      simp only [signedSumUpTo, List.filter_cons]
      rw [if_neg (by simp [h1])]

theorem shareCountAtDate_eq_max (txs : List Transaction) (tk : String) (d : Int) :
    shareCountAtDate txs tk d = max (signedSumUpTo txs tk d) 0 := by
  show max _ 0 = _
  rw [shareCount_foldl_eq, zero_add]

theorem signedSumUpTo_mono (txs : List Transaction) (tk : String) (d1 d2 : Int)
    (h12 : d1 ≤ d2)
    (hb : ∀ t ∈ txs, t.ticker = tk → t.type = TxType.BUY ∧ 0 ≤ t.qty) :
    signedSumUpTo txs tk d1 ≤ signedSumUpTo txs tk d2 := by
  induction txs with
  | nil => simp [signedSumUpTo]
  | cons t ts ih =>
    have hts : ∀ t' ∈ ts, t'.ticker = tk → t'.type = TxType.BUY ∧ 0 ≤ t'.qty :=
      fun t' h' => hb t' (List.mem_cons_of_mem _ h')
    by_cases h1 : t.ticker = tk
    · obtain ⟨hB, hq⟩ := hb t (List.mem_cons_self t ts) h1
      have hsq : signedQty t = t.qty := by simp [signedQty, hB]
      by_cases h2 : t.date ≤ d1
      · have h2' : t.date ≤ d2 := le_trans h2 h12
        simp only [signedSumUpTo, List.filter_cons]
        rw [if_pos (by simp [h1, h2]), if_pos (by simp [h1, h2'])]
        simp only [List.map_cons, List.sum_cons, hsq]
        exact add_le_add_left (ih hts) _
      · by_cases h3 : t.date ≤ d2
        · simp only [signedSumUpTo, List.filter_cons]
          rw [if_neg (by simp [h2]), if_pos (by simp [h1, h3])]
          simp only [List.map_cons, List.sum_cons, hsq]
          exact le_add_of_le_of_nonneg (ih hts) hq |>.trans_eq
            (by simp [signedSumUpTo, add_comm])
        · simp only [signedSumUpTo, List.filter_cons]
          rw [if_neg (by simp [h2]), if_neg (by simp [h3])]
          exact ih hts
    · simp only [signedSumUpTo, List.filter_cons]
      rw [if_neg (by simp [h1]), if_neg (by simp [h1])]
      exact ih hts

/-! ### Permutation and membership machinery for the output list -/

theorem perm_insertSorted (x : Position) (l : List Position) :
    List.Perm (insertSorted x l) (x :: l) := by
  induction l with
  | nil => exact List.Perm.refl _
  | cons y ys ih =>
    simp only [insertSorted]
    by_cases h : x.ticker ≤ y.ticker
    · rw [if_pos h]
    · rw [if_neg h]
      exact (ih.cons y).trans (List.Perm.swap x y ys)

theorem perm_sortByTicker (l : List Position) : List.Perm (sortByTicker l) l := by
  induction l with
  | nil => exact List.Perm.refl _
  | cons x xs ih =>
    simp only [sortByTicker]
    exact (perm_insertSorted x (sortByTicker xs)).trans (ih.cons x)

theorem quoteFold_cons (p : PortfolioData) (pr : PriceNow) (rest : List PriceNow)
    (pos : List Position) :
    quoteFold p (pr :: rest) pos =
      quoteFold p rest
        (if pos.any (fun x => x.ticker == pr.ticker) then pos
         else pos ++ [quotePosition p pr]) := rfl

theorem mem_quoteFold (p : PortfolioData) (prices : List PriceNow)
    (pos : List Position) (x : Position) (hx : x ∈ pos) :
    x ∈ quoteFold p prices pos := by
  induction prices generalizing pos with
  | nil => exact hx
  | cons pr rest ih =>
    rw [quoteFold_cons]
    by_cases h : pos.any (fun y => y.ticker == pr.ticker)
    · rw [if_pos h]
      exact ih pos hx
    · rw [if_neg h]
      exact ih _ (List.mem_append_left _ hx)

theorem mem_dedupFirst (l : List String) (x : String) : x ∈ dedupFirst l ↔ x ∈ l := by
  induction l with
  | nil => simp [dedupFirst]
  | cons y ys ih =>
    simp only [dedupFirst, List.mem_cons, List.mem_filter, ih, bne_iff_ne, ne_eq]
    constructor
    · rintro (rfl | ⟨h, _⟩)
      · exact Or.inl rfl
      · exact Or.inr h
    · rintro (rfl | h)
      · exact Or.inl rfl
      · by_cases hxy : x = y
        · exact Or.inl hxy
        · exact Or.inr ⟨h, hxy⟩

theorem mkPosition_mem_aggregate (p : PortfolioData) (tk : String)
    (h : tk ∈ p.transactions.map Transaction.ticker) :
    mkPosition p tk ∈ aggregatePositions p := by
  have h1 : tk ∈ txTickers p.transactions := (mem_dedupFirst _ _).mpr h
  have h2 : mkPosition p tk ∈ (txTickers p.transactions).map (mkPosition p) :=
    List.mem_map_of_mem _ h1
  have h3 := mem_quoteFold p p.prices _ _ h2
  exact ((perm_sortByTicker _).mem_iff).mpr h3

/-! ### Claim C1 -/

/-- Claim C1 (amended): in the per-ticker cost-basis fold, a SELL of
quantity `q` processed while the running `qty` is positive removes exactly
`(cost/qty) * q` from `cost`, subtracts `q` from `qty`, and then adds the
sell's fees to `cost`; and when the sell's fees are `0` and `q < qty`, the
average price `cost/qty` immediately after the sell equals the average
price immediately before it.  (The preservation clause needs the two extra
conditions: nonzero fees shift the average, and a full liquidation leaves
`qty = 0`.) -/
theorem sell_step_cost_update (qty cost : ℚ) (t : Transaction)
    (hSell : t.type = TxType.SELL) (hq : 0 < qty) :
    applyTx (qty, cost) t
        = (qty - t.qty, cost - cost / qty * t.qty + t.fees.getD 0) ∧
    (t.fees.getD 0 = 0 → t.qty < qty →
      (applyTx (qty, cost) t).2 / (applyTx (qty, cost) t).1 = cost / qty) := by
  have h1 : applyTx (qty, cost) t
      = (qty - t.qty, cost - cost / qty * t.qty + t.fees.getD 0) := by
    rw [applyTx_sell _ _ hSell]
    simp [hq]
  refine ⟨h1, fun hf hlt => ?_⟩
  rw [h1, hf]
  simp only [add_zero]
  have hq0 : qty ≠ 0 := ne_of_gt hq
  have hsub : qty - t.qty ≠ 0 := ne_of_gt (by linarith)
  field_simp
  ring

def txW1 : Transaction := ⟨"w1", 0, "X", TxType.SELL, 50, 402/10, some 0⟩

theorem sell_step_cost_update_witness :
    applyTx (100, 3750) txW1 = (50, 1875) ∧
    (applyTx (100, 3750) txW1).2 / (applyTx (100, 3750) txW1).1 = (3750 : ℚ) / 100 := by
  have h := sell_step_cost_update 100 3750 txW1 (by rfl) (by norm_num)
  refine ⟨?_, h.2 (by norm_num [txW1]) (by norm_num [txW1])⟩
  rw [h.1]
  norm_num [txW1]

def txC1 : Transaction := ⟨"c1", 0, "X", TxType.SELL, 50, 402/10, some (11/10)⟩

/-- Counterexample to claim C1 as stated: a sell with fees `1.10` from the
state `qty = 100`, `cost = 3750` (average `37.5`) leaves cost `1876.1` over
`50` shares, i.e. average `37.522 ≠ 37.5`: the average price after a sell
with nonzero fees differs from the average before it. -/
theorem sell_avg_not_preserved_with_fees :
    applyTx (100, 3750) txC1 = (50, 18761/10) ∧
    (applyTx (100, 3750) txC1).2 / (applyTx (100, 3750) txC1).1 ≠ (3750 : ℚ) / 100 := by
  constructor
  · norm_num [applyTx, txC1]
  · norm_num [applyTx, txC1]

/-! ### Claim C2 -/

/-- Claim C2: for a portfolio whose transactions on a ticker are all BUYs,
the `Position` that `aggregatePositions` produces for that ticker has
`invested = Σ (qty·price + fees)` (absent fees read as `0`) and
`qty = Σ qty`, exactly; and the same holds after every prefix of the
per-ticker fold. -/
theorem buyOnly_position_sums (p : PortfolioData) (tk : String)
    (hmem : tk ∈ p.transactions.map Transaction.ticker)
    (hbuy : ∀ t ∈ p.transactions, t.ticker = tk → t.type = TxType.BUY) :
    (∃ pos ∈ aggregatePositions p, pos.ticker = tk ∧
      pos.qty = ((p.transactions.filter (fun t => t.ticker == tk)).map Transaction.qty).sum ∧
      pos.invested = ((p.transactions.filter (fun t => t.ticker == tk)).map
        (fun t => t.qty * t.price + t.fees.getD 0)).sum) ∧
    (∀ n, foldTx ((p.transactions.filter (fun t => t.ticker == tk)).take n) =
      ((((p.transactions.filter (fun t => t.ticker == tk)).take n).map Transaction.qty).sum,
       (((p.transactions.filter (fun t => t.ticker == tk)).take n).map
         (fun t => t.qty * t.price + t.fees.getD 0)).sum)) := by
  have hf : ∀ t ∈ p.transactions.filter (fun t => t.ticker == tk), t.type = TxType.BUY := by
    intro t ht
    rw [List.mem_filter] at ht
    exact hbuy t ht.1 (by simpa using ht.2)
  refine ⟨⟨mkPosition p tk, mkPosition_mem_aggregate p tk hmem, rfl, ?_, ?_⟩, ?_⟩
  · show (foldTx (p.transactions.filter (fun t => t.ticker == tk))).1 = _
    rw [foldTx_buyOnly _ hf]
  · show (foldTx (p.transactions.filter (fun t => t.ticker == tk))).2 = _
    rw [foldTx_buyOnly _ hf]
  · intro n
    exact foldTx_buyOnly _ (fun t ht => hf t (List.take_subset n _ ht))

def txW2 : Transaction := ⟨"1", 0, "A", TxType.BUY, 2, 3, some 1⟩

def pW2 : PortfolioData := ⟨"p", "p", "BRL", [txW2], [], [], [], []⟩

theorem buyOnly_position_sums_witness :
    (∃ pos ∈ aggregatePositions pW2, pos.ticker = "A" ∧
      pos.qty = ((pW2.transactions.filter (fun t => t.ticker == "A")).map Transaction.qty).sum ∧
      pos.invested = ((pW2.transactions.filter (fun t => t.ticker == "A")).map
        (fun t => t.qty * t.price + t.fees.getD 0)).sum) ∧
    (∀ n, foldTx ((pW2.transactions.filter (fun t => t.ticker == "A")).take n) =
      ((((pW2.transactions.filter (fun t => t.ticker == "A")).take n).map Transaction.qty).sum,
       (((pW2.transactions.filter (fun t => t.ticker == "A")).take n).map
         (fun t => t.qty * t.price + t.fees.getD 0)).sum)) :=
  buyOnly_position_sums pW2 "A" (by simp [pW2, txW2])
    (by
      intro t ht _
      simp only [pW2, List.mem_singleton] at ht
      subst ht
      rfl)

/-! ### Claim C4 -/

/-- Claim C4: `shareCountAtDate` returns the sum of signed quantities
(`+qty` for BUY, `-qty` for SELL) over exactly the transactions on the
given ticker dated on-or-before the given date (equal dates included),
clamped to be nonnegative; in particular the result is never negative. -/
theorem shareCountAtDate_spec (txs : List Transaction) (tk : String) (d : Int) :
    shareCountAtDate txs tk d = max (signedSumUpTo txs tk d) 0 ∧
    0 ≤ shareCountAtDate txs tk d := by
  refine ⟨shareCountAtDate_eq_max txs tk d, ?_⟩
  rw [shareCountAtDate_eq_max]
  exact le_max_right _ _

/-! ### Claim C5 -/

def txC5a : Transaction := ⟨"1", 1, "A", TxType.BUY, 100, 1, none⟩

def txC5b : Transaction := ⟨"2", 2, "A", TxType.SELL, 50, 1, none⟩

/-- Counterexample to claim C5 as stated: with a BUY of 100 dated 1 and a
SELL of 50 dated 2, the share count at date 1 is 100 but at date 2 it is
50, so `shareCountAtDate` is not monotonically non-decreasing in the date:
any sell strictly decreases it. -/
theorem shareCount_not_monotone :
    shareCountAtDate [txC5a, txC5b] "A" 1 = 100 ∧
    shareCountAtDate [txC5a, txC5b] "A" 2 = 50 ∧
    ¬ (shareCountAtDate [txC5a, txC5b] "A" 1 ≤ shareCountAtDate [txC5a, txC5b] "A" 2) := by
  norm_num [shareCountAtDate, txC5a, txC5b]

/-- Claim C5 (amended): for a fixed ticker whose transactions on that
ticker are all BUYs of nonnegative quantity, `shareCountAtDate` is
monotonically non-decreasing as the date advances.  (As stated the claim
is false: any SELL strictly decreases the count at later dates.) -/
theorem shareCount_monotone_buyOnly (txs : List Transaction) (tk : String)
    (hb : ∀ t ∈ txs, t.ticker = tk → t.type = TxType.BUY ∧ 0 ≤ t.qty)
    (d1 d2 : Int) (h12 : d1 ≤ d2) :
    shareCountAtDate txs tk d1 ≤ shareCountAtDate txs tk d2 := by
  rw [shareCountAtDate_eq_max, shareCountAtDate_eq_max]
  exact max_le_max (signedSumUpTo_mono txs tk d1 d2 h12 hb) le_rfl

def txW5 : Transaction := ⟨"1", 0, "A", TxType.BUY, 10, 1, none⟩

theorem shareCount_monotone_buyOnly_witness :
    shareCountAtDate [txW5] "A" 0 ≤ shareCountAtDate [txW5] "A" 1 :=
  shareCount_monotone_buyOnly [txW5] "A"
    (by
      intro t ht _
      simp only [List.mem_singleton] at ht
      subst ht
      exact ⟨rfl, by norm_num [txW5]⟩)
    0 1 (by norm_num)

/-! ### Claim C3 -/

/-- The BUY condition of the signal derivation: `buyPrice` set (non-null),
positive last price, last price at or below the threshold. -/
def buyCond (tr : Trigger) (lp : ℚ) : Prop :=
  tr.buyPrice ≠ none ∧ 0 < lp ∧ lp ≤ tr.buyPrice.getD 0

/-- The SELL condition of the signal derivation. -/
def sellCond (tr : Trigger) (lp : ℚ) : Prop :=
  tr.sellPrice ≠ none ∧ 0 < lp ∧ tr.sellPrice.getD 0 ≤ lp

/-- The trailing-stop condition of the signal derivation. -/
def stopCond (tr : Trigger) (lp pl : ℚ) : Prop :=
  tr.trailingStopPct ≠ none ∧ 0 < tr.trailingStopPct.getD 0 ∧ 0 < lp ∧
    pl ≤ -(tr.trailingStopPct.getD 0)

instance (tr : Trigger) (lp : ℚ) : Decidable (buyCond tr lp) := by
  unfold buyCond
  infer_instance

instance (tr : Trigger) (lp : ℚ) : Decidable (sellCond tr lp) := by
  unfold sellCond
  infer_instance

instance (tr : Trigger) (lp pl : ℚ) : Decidable (stopCond tr lp pl) := by
  unfold stopCond
  infer_instance

theorem signalFor_eq (tr : Trigger) (lp pl : ℚ) :
    signalFor (some tr) lp pl =
      if stopCond tr lp pl then Signal.STOP
      else if sellCond tr lp then Signal.SELL
      else if buyCond tr lp then Signal.BUY
      else Signal.HOLD := by
  obtain ⟨tkr, bp, sp, ts, nt⟩ := tr
  cases bp <;> cases sp <;> cases ts <;>
    simp only [signalFor, buyCond, sellCond, stopCond, Option.getD_some, Option.getD_none,
      ne_eq, not_true_eq_false, not_false_eq_true, false_and, true_and, and_false,
      if_false, reduceCtorEq]

/-- Claim C3: for a position built from a ticker's transactions, the
signal follows the precedence default `HOLD` < `BUY` < `SELL` < `STOP`:
`BUY` when `buyPrice` is set, `lastPrice > 0` and `lastPrice ≤ buyPrice`;
`SELL` when `sellPrice` is set, `lastPrice > 0` and
`lastPrice ≥ sellPrice`, overriding `BUY`; `STOP` when `trailingStopPct`
is set and positive, `lastPrice > 0` and `plPct ≤ -trailingStopPct`,
overriding both.  In particular both buy and sell matching gives `SELL`,
and all three matching gives `STOP`. -/
theorem signal_precedence (p : PortfolioData) (tk : String) (tr : Trigger) (lp pl : ℚ) :
    ((mkPosition p tk).signal =
      signalFor (trigLookup p.triggers tk) (mkPosition p tk).lastPrice
        (mkPosition p tk).plPct) ∧
    signalFor none lp pl = Signal.HOLD ∧
    (signalFor (some tr) lp pl =
      if stopCond tr lp pl then Signal.STOP
      else if sellCond tr lp then Signal.SELL
      else if buyCond tr lp then Signal.BUY
      else Signal.HOLD) ∧
    (buyCond tr lp → sellCond tr lp → ¬ stopCond tr lp pl →
      signalFor (some tr) lp pl = Signal.SELL) ∧
    (buyCond tr lp → sellCond tr lp → stopCond tr lp pl →
      signalFor (some tr) lp pl = Signal.STOP) := by
  refine ⟨rfl, rfl, signalFor_eq tr lp pl, ?_, ?_⟩
  · intro _ hs hst
    rw [signalFor_eq, if_neg hst, if_pos hs]
  · intro _ _ hst
    rw [signalFor_eq, if_pos hst]

def pE : PortfolioData := ⟨"p", "p", "BRL", [], [], [], [], []⟩

def trW3 : Trigger := ⟨"A", some 10, some 3, none, none⟩

theorem signal_precedence_witness :
    signalFor (some trW3) 5 0 = Signal.SELL :=
  (signal_precedence pE "A" trW3 5 0).2.2.2.1
    (by refine ⟨by simp [trW3], by norm_num, by norm_num [trW3]⟩)
    (by refine ⟨by simp [trW3], by norm_num, by norm_num [trW3]⟩)
    (by simp [stopCond, trW3])

/-! ### Claim C6 -/

def pC6 : PortfolioData :=
  ⟨"p", "p", "BRL", [⟨"1", 0, "A", TxType.BUY, 1/2, 10, some 0⟩], [], [], [], []⟩

/-- Claim C6 fails on the code (the spec invariant `avgPrice = invested /
qty` when `qty > 0` is the stated intent): a single BUY of half a share at
price 10 gives `qty = 1/2`, `invested = 5`, but the code computes
`avgPrice = cost / max(qty, 1) = 5`, while `invested / qty = 10`.  The
`max(qty, 1)` guard is redundant after the `qty > 0` test and corrupts the
average for fractional quantities strictly between 0 and 1. -/
theorem avgPrice_fractional_qty_bug :
    (aggregatePositions pC6).map (fun pos => (pos.qty, pos.invested, pos.avgPrice)) =
      [(1/2, 5, 5)] ∧
    (5 : ℚ) / ((1 : ℚ)/2) = 10 ∧ (5 : ℚ) ≠ (5 : ℚ) / ((1 : ℚ)/2) := by
  refine ⟨?_, by norm_num, by norm_num⟩
  norm_num [aggregatePositions, pC6, txTickers, dedupFirst, quoteFold, sortByTicker,
    insertSorted, mkPosition, foldTx, applyTx, priceLookup, trigLookup, divTotal]

/-! ### Claim C7 -/

theorem countP_congr_mem {α : Type} (l : List α) (p q : α → Bool)
    (h : ∀ a ∈ l, p a = q a) : l.countP p = l.countP q := by
  induction l with
  | nil => rfl
  | cons a as ih =>
    rw [List.countP_cons, List.countP_cons, h a (List.mem_cons_self a as),
      ih (fun b hb => h b (List.mem_cons_of_mem _ hb))]

theorem countP_dedupFirst (l : List String) (tk : String) :
    (dedupFirst l).countP (fun x => x == tk) = if tk ∈ l then 1 else 0 := by
  induction l with
  | nil => simp [dedupFirst]
  | cons y ys ih =>
    simp only [dedupFirst, List.countP_cons, List.countP_filter, List.mem_cons]
    rcases eq_or_ne tk y with rfl | h
    · have h0 : (dedupFirst ys).countP (fun a => a == tk && a != tk) = 0 := by
        rw [List.countP_eq_zero]
        intro a _
        simp only [Bool.and_eq_true, beq_iff_eq, bne_iff_ne, ne_eq, not_and]
        rintro rfl hne
        exact hne rfl
      rw [h0, if_pos (by simp), if_pos (Or.inl rfl)]
    · have he : ∀ a ∈ dedupFirst ys, ((a == tk) && (a != y)) = (a == tk) := by
        intro a _
        by_cases ha : a = tk
        · subst ha
          simp [h]
        · simp [ha]
      have hyt : ¬ ((y == tk) = true) := by
        simp only [beq_iff_eq]
        exact fun hh => h hh.symm
      rw [countP_congr_mem _ _ _ he, ih]
      rcases em (tk ∈ ys) with hm | hm
      · simp [hm, hyt]
      · simp [hm, hyt, h]

theorem countP_map_mk (p : PortfolioData) (keys : List String) (tk : String) :
    (keys.map (mkPosition p)).countP (fun pos => pos.ticker == tk) =
      keys.countP (fun x => x == tk) := by
  induction keys with
  | nil => rfl
  | cons k ks ih =>
    simp only [List.map_cons, List.countP_cons, ih]
    rfl

theorem quotePosition_ticker (p : PortfolioData) (pr : PriceNow) :
    (quotePosition p pr).ticker = pr.ticker := rfl

theorem countP_quoteFold (p : PortfolioData) (prices : List PriceNow)
    (pos : List Position) (tk : String) :
    (quoteFold p prices pos).countP (fun x => x.ticker == tk) =
      if pos.countP (fun x => x.ticker == tk) = 0 ∧ tk ∈ prices.map PriceNow.ticker
      then 1 else pos.countP (fun x => x.ticker == tk) := by
  induction prices generalizing pos with
  | nil => simp [quoteFold]
  | cons pr rest ih =>
    rw [quoteFold_cons]
    by_cases hpr : pos.any (fun x => x.ticker == pr.ticker)
    · rw [if_pos hpr, ih]
      by_cases htk : tk = pr.ticker
      · have hc : pos.countP (fun x => x.ticker == tk) ≠ 0 := by
          rw [List.any_eq_true] at hpr
          obtain ⟨x, hx, hxt⟩ := hpr
          rw [Ne, List.countP_eq_zero]
          intro hall
          apply hall x hx
          rw [htk]
          exact hxt
        rw [if_neg (fun hco => hc hco.1), if_neg (fun hco => hc hco.1)]
      · simp only [List.map_cons, List.mem_cons, htk, false_or]
    · rw [if_neg hpr, ih]
      have happ : (pos ++ [quotePosition p pr]).countP (fun x => x.ticker == tk)
          = pos.countP (fun x => x.ticker == tk)
            + (if (pr.ticker == tk) = true then 1 else 0) := by
        rw [List.countP_append, List.countP_cons, List.countP_nil, zero_add,
          quotePosition_ticker]
      by_cases htk : tk = pr.ticker
      · have hc : pos.countP (fun x => x.ticker == tk) = 0 := by
          rw [List.countP_eq_zero]
          intro a ha hpa
          apply hpr
          apply List.any_eq_true.mpr
          refine ⟨a, ha, ?_⟩
          rw [← htk]
          exact hpa
        have hinner : (if (pr.ticker == tk) = true then 1 else 0) = 1 := by simp [htk]
        rw [happ, hc, hinner]
        simp [htk]
      · have hof : ¬ ((pr.ticker == tk) = true) := by
          simp only [beq_iff_eq]
          exact fun hh => htk hh.symm
        have hinner : (if (pr.ticker == tk) = true then 1 else 0) = 0 := if_neg hof
        rw [happ, hinner, add_zero]
        simp only [List.map_cons, List.mem_cons, htk, false_or]

theorem quoteFold_adds (p : PortfolioData) (prices : List PriceNow)
    (pos : List Position) (tk : String)
    (h0 : pos.countP (fun x => x.ticker == tk) = 0)
    (hm : tk ∈ prices.map PriceNow.ticker) :
    ∃ pr ∈ prices, pr.ticker = tk ∧ quotePosition p pr ∈ quoteFold p prices pos := by
  induction prices generalizing pos with
  | nil => simp at hm
  | cons pr rest ih =>
    rw [quoteFold_cons]
    by_cases hpr : pos.any (fun x => x.ticker == pr.ticker)
    · rw [if_pos hpr]
      have hne : pr.ticker ≠ tk := by
        intro he
        rw [List.any_eq_true] at hpr
        obtain ⟨x, hx, hxt⟩ := hpr
        rw [List.countP_eq_zero] at h0
        rw [he] at hxt
        exact h0 x hx hxt
      have hm' : tk ∈ rest.map PriceNow.ticker := by
        simp only [List.map_cons, List.mem_cons] at hm
        exact hm.resolve_left (fun he => hne he.symm)
      obtain ⟨pr', h1, h2, h3⟩ := ih pos h0 hm'
      exact ⟨pr', List.mem_cons_of_mem _ h1, h2, h3⟩
    · rw [if_neg hpr]
      by_cases he : pr.ticker = tk
      · refine ⟨pr, List.mem_cons_self _ _, he, ?_⟩
        exact mem_quoteFold p rest _ _ (List.mem_append_right _ (List.mem_singleton_self _))
      · have h0' : (pos ++ [quotePosition p pr]).countP (fun x => x.ticker == tk) = 0 := by
          rw [List.countP_append, h0]
          simp [List.countP_cons, quotePosition_ticker, he]
        have hm' : tk ∈ rest.map PriceNow.ticker := by
          simp only [List.map_cons, List.mem_cons] at hm
          exact hm.resolve_left (fun h => he h.symm)
        obtain ⟨pr', h1, h2, h3⟩ := ih _ h0' hm'
        exact ⟨pr', List.mem_cons_of_mem _ h1, h2, h3⟩

/-- Claim C7 (amended): the output of `aggregatePositions` contains
exactly one `Position` per distinct ticker appearing in `transactions` or
`prices` (and none for any other ticker); every ticker that has a quote
but no transactions appears as a synthesized zero-position entry with
`qty = invested = 0` whose signal is computed only from the buy/sell
trigger comparison against the quote price — the trailing stop is never
consulted for such entries.  (As stated the claim also promised an entry
for tickers that only have a trigger; those are absent from the output.) -/
theorem positions_unique_per_ticker (p : PortfolioData) (tk : String) :
    ((aggregatePositions p).countP (fun pos => pos.ticker == tk) =
      if tk ∈ p.transactions.map Transaction.ticker ∨ tk ∈ p.prices.map PriceNow.ticker
      then 1 else 0) ∧
    (tk ∈ p.prices.map PriceNow.ticker → tk ∉ p.transactions.map Transaction.ticker →
      ∃ pr ∈ p.prices, pr.ticker = tk ∧ quotePosition p pr ∈ aggregatePositions p ∧
        (quotePosition p pr).qty = 0 ∧ (quotePosition p pr).invested = 0 ∧
        (quotePosition p pr).signal =
          quoteSignal (p.triggers.find? (fun t => t.ticker == pr.ticker)) pr.price) ∧
    (∀ otr price ts0, quoteSignal (otr.map (fun tr => { tr with trailingStopPct := ts0 })) price
        = quoteSignal otr price) := by
  have hperm := perm_sortByTicker
    (quoteFold p p.prices ((txTickers p.transactions).map (mkPosition p)))
  refine ⟨?_, ?_, ?_⟩
  · rw [show aggregatePositions p
        = sortByTicker (quoteFold p p.prices ((txTickers p.transactions).map (mkPosition p)))
        from rfl]
    rw [hperm.countP_eq, countP_quoteFold, countP_map_mk, txTickers, countP_dedupFirst]
    by_cases h1 : tk ∈ p.transactions.map Transaction.ticker
    · rw [if_pos h1, if_neg (by simp), if_pos (Or.inl h1)]
    · rw [if_neg h1]
      by_cases h2 : tk ∈ p.prices.map PriceNow.ticker
      · rw [if_pos ⟨rfl, h2⟩, if_pos (Or.inr h2)]
      · rw [if_neg (by tauto), if_neg (by tauto)]
  · intro hpr htx
    have h0 : ((txTickers p.transactions).map (mkPosition p)).countP
        (fun x => x.ticker == tk) = 0 := by
      rw [countP_map_mk, txTickers, countP_dedupFirst, if_neg htx]
    obtain ⟨pr, h1, h2, h3⟩ := quoteFold_adds p p.prices _ tk h0 hpr
    exact ⟨pr, h1, h2, (hperm.mem_iff).mpr h3, rfl, rfl, rfl⟩
  · intro otr price ts0
    cases otr <;> rfl

def pC7 : PortfolioData := ⟨"p", "p", "BRL", [], [], [⟨"A", some 1, none, none, none⟩], [], []⟩

/-- Counterexample to claim C7 as stated: a portfolio whose only record is
a trigger for ticker `A` (no transactions, no quotes) produces an empty
position list — a ticker with a trigger but no transactions and no quote
gets no synthesized entry. -/
theorem trigger_only_ticker_absent :
    aggregatePositions pC7 = [] ∧ "A" ∈ pC7.triggers.map Trigger.ticker := by
  exact ⟨rfl, by simp [pC7]⟩

def pW7 : PortfolioData := ⟨"p", "p", "BRL", [], [⟨"B", 1, "t"⟩], [], [], []⟩

theorem positions_unique_per_ticker_witness :
    ∃ pr ∈ pW7.prices, pr.ticker = "B" ∧ quotePosition pW7 pr ∈ aggregatePositions pW7 ∧
      (quotePosition pW7 pr).qty = 0 ∧ (quotePosition pW7 pr).invested = 0 ∧
      (quotePosition pW7 pr).signal =
        quoteSignal (pW7.triggers.find? (fun t => t.ticker == pr.ticker)) pr.price :=
  (positions_unique_per_ticker pW7 "B").2.1 (by simp [pW7]) (by simp [pW7])

/-! ### Claim C8 -/

def csvC8 : String := "date,ticker,type,qty,price,fees\n2024-01-01,AAA,BUY,abc,10,0"

/-- Counterexample to claim C8 as stated: the CSV row whose quantity cell
is the non-empty, non-numeric string `abc` imports with `qty = NaN`
(modelled as `none`), not `0`: `Number("abc")` is `NaN`, and the `|| 0`
fallback fires only for missing or empty cells. -/
theorem csv_nonNumeric_qty_is_nan :
    (csvToTransactions csvC8 ("2024-01-01".data)).map CsvTransaction.qty = [none] ∧
    (csvToTransactions csvC8 ("2024-01-01".data)).map CsvTransaction.qty ≠ [some 0] := by
  constructor
  · decide
  · decide

/-- Claim C8 (amended): in the importer's field parsing, a missing cell or
an empty cell parses to `0`, while a non-empty cell that `Number` cannot
parse yields `NaN` (`none`), not `0`; the concrete import of `csvC8` shows
the `NaN` outcome on the full importer. -/
theorem csv_field_parse :
    (∀ (parts : List JsString) (i : Option Nat) (s : JsString),
      i.bind (fun j => parts[j]?) = some s → s ≠ [] → jsNumber s = none →
        fieldOr0 parts i = none) ∧
    (∀ (parts : List JsString) (i : Option Nat),
      i.bind (fun j => parts[j]?) = none → fieldOr0 parts i = some 0) ∧
    (∀ (parts : List JsString) (i : Option Nat),
      i.bind (fun j => parts[j]?) = some [] → fieldOr0 parts i = some 0) ∧
    (csvToTransactions csvC8 ("2024-01-01".data)).map CsvTransaction.qty = [none] := by
  refine ⟨?_, ?_, ?_, by decide⟩
  · intro parts i s hs hne hnan
    simp only [fieldOr0, hs]
    rw [if_neg hne]
    exact hnan
  · intro parts i h
    simp only [fieldOr0, h]
  · intro parts i h
    simp [fieldOr0, h]

theorem csv_field_parse_witness :
    fieldOr0 [['a', 'b', 'c']] (some 0) = none :=
  csv_field_parse.1 [['a', 'b', 'c']] (some 0) ['a', 'b', 'c']
    (by decide) (by decide) (by decide)

/-! ### Claim C9 -/

theorem upsert_nil {α : Type} (pred : α → Bool) (next : α) :
    upsert [] pred next = [next] := rfl

theorem upsert_cons {α : Type} (a : α) (as : List α) (pred : α → Bool) (next : α) :
    upsert (a :: as) pred next =
      if pred a then next :: as else a :: upsert as pred next := by
  by_cases h : pred a
  · simp [upsert, List.findIdx?_cons, h]
  · simp only [upsert, List.findIdx?_cons, h, Bool.false_eq_true, if_false]
    cases hf : as.findIdx? pred <;> simp [hf, List.set]

/-- Claim C9: starting from a price list with at most one quote per
ticker, the upsert performed by `setPrice` (keyed on the ticker) yields a
list in which that ticker's quote is exactly the newly written one, every
other ticker's quotes are unchanged, and there is still at most one quote
per ticker. -/
theorem upsert_price_unique (prices : List PriceNow) (tk : String) (price : ℚ) (ts0 : String)
    (h : ∀ tk', (prices.filter (fun x => x.ticker == tk')).length ≤ 1) :
    (setPriceList prices tk price ts0).filter (fun x => x.ticker == tk)
        = [⟨tk, price, ts0⟩] ∧
    (∀ tk', tk' ≠ tk →
      (setPriceList prices tk price ts0).filter (fun x => x.ticker == tk') =
        prices.filter (fun x => x.ticker == tk')) ∧
    (∀ tk', ((setPriceList prices tk price ts0).filter (fun x => x.ticker == tk')).length ≤ 1) := by
  have key : ∀ (l : List PriceNow),
      (∀ tk', (l.filter (fun x => x.ticker == tk')).length ≤ 1) →
      (upsert l (fun x => x.ticker == tk) (⟨tk, price, ts0⟩ : PriceNow)).filter
          (fun x => x.ticker == tk) = [⟨tk, price, ts0⟩] ∧
      (∀ tk', tk' ≠ tk →
        (upsert l (fun x => x.ticker == tk) (⟨tk, price, ts0⟩ : PriceNow)).filter
            (fun x => x.ticker == tk') = l.filter (fun x => x.ticker == tk')) := by
    intro l
    induction l with
    | nil =>
      intro _
      constructor
      · rw [upsert_nil]
        simp
      · intro tk' hne
        rw [upsert_nil]
        simp only [List.filter_cons, List.filter_nil]
        rw [if_neg (by simp only [beq_iff_eq]; exact fun hh => hne hh.symm)]
    | cons a as ih =>
      intro hl
      have has : ∀ tk', ((as.filter (fun x => x.ticker == tk')).length ≤ 1) := by
        intro tk'
        have hthis := hl tk'
        rw [List.filter_cons] at hthis
        by_cases hc : (a.ticker == tk') = true
        · rw [if_pos hc, List.length_cons] at hthis
          omega
        · rw [if_neg hc] at hthis
          exact hthis
      rw [upsert_cons]
      by_cases hpa : (a.ticker == tk) = true
      · rw [if_pos hpa]
        constructor
        · have h1 := hl tk
          rw [List.filter_cons, if_pos hpa, List.length_cons] at h1
          have h2 : (as.filter (fun x => x.ticker == tk)).length = 0 := by omega
          rw [List.length_eq_zero] at h2
          rw [List.filter_cons, if_pos (by simp), h2]
        · intro tk' hne
          rw [List.filter_cons, List.filter_cons]
          have hA : ¬ ((a.ticker == tk') = true) := by
            simp only [beq_iff_eq] at hpa ⊢
            rw [hpa]
            exact fun hh => hne hh.symm
          rw [if_neg (by simp only [beq_iff_eq]; exact fun hh => hne hh.symm), if_neg hA]
      · rw [if_neg hpa]
        obtain ⟨ih1, ih2⟩ := ih has
        constructor
        · rw [List.filter_cons, if_neg hpa]
          exact ih1
        · intro tk' hne
          rw [List.filter_cons, List.filter_cons]
          by_cases hc : (a.ticker == tk') = true
          · rw [if_pos hc, if_pos hc, ih2 tk' hne]
          · rw [if_neg hc, if_neg hc]
            exact ih2 tk' hne
  obtain ⟨k1, k2⟩ := key prices h
  refine ⟨k1, k2, ?_⟩
  intro tk'
  show ((upsert prices (fun x => x.ticker == tk) (⟨tk, price, ts0⟩ : PriceNow)).filter
      (fun x => x.ticker == tk')).length ≤ 1
  by_cases hc : tk' = tk
  · rw [hc, k1]
    norm_num
  · rw [k2 tk' hc]
    exact h tk'

def pricesW9 : List PriceNow := [⟨"B", 2, "t0"⟩]

theorem upsert_price_unique_witness :
    (setPriceList pricesW9 "A" 3 "t1").filter (fun x => x.ticker == "A")
        = [⟨"A", 3, "t1"⟩] ∧
    (∀ tk', tk' ≠ "A" →
      (setPriceList pricesW9 "A" 3 "t1").filter (fun x => x.ticker == tk') =
        pricesW9.filter (fun x => x.ticker == tk')) ∧
    (∀ tk', ((setPriceList pricesW9 "A" 3 "t1").filter (fun x => x.ticker == tk')).length ≤ 1) :=
  upsert_price_unique pricesW9 "A" 3 "t1"
    (fun tk' => le_trans (List.length_filter_le _ _) (by norm_num [pricesW9]))

/-! ### Claim C10 -/

def txA10 : Transaction := ⟨"1", 0, "A", TxType.BUY, 1, 1, some 0⟩

def portA10 (lp : ℚ) : PortfolioData :=
  ⟨"p", "p", "BRL", [txA10], [⟨"A", lp, "t"⟩], [⟨"A", none, some 0, none, none⟩], [], []⟩

def portB10 (lp : ℚ) : PortfolioData :=
  ⟨"p", "p", "BRL", [], [⟨"A", lp, "t"⟩], [⟨"A", some 0, some 0, none, none⟩], [], []⟩

/-- Claim C10: trigger thresholds equal to 0 are treated asymmetrically.
For a ticker with transactions the thresholds are tested with null
checks, so a `sellPrice` of `0` is live: with any positive quote it yields
signal `SELL` (`portA10`).  For a synthesized quote-only position the
thresholds are tested by truthiness, so thresholds equal to `0` count as
unset and the signal stays `HOLD` for every quote price (`portB10`). -/
theorem zero_threshold_asymmetry (lp : ℚ) :
    (0 < lp → (aggregatePositions (portA10 lp)).map Position.signal = [Signal.SELL]) ∧
    (aggregatePositions (portB10 lp)).map Position.signal = [Signal.HOLD] := by
  constructor
  · intro h
    simp [aggregatePositions, portA10, txA10, txTickers, dedupFirst, quoteFold, sortByTicker,
      insertSorted, mkPosition, foldTx, applyTx, priceLookup, trigLookup, divTotal,
      signalFor, h, h.le]
  · simp [aggregatePositions, portB10, txTickers, dedupFirst, quoteFold, sortByTicker,
      insertSorted, quotePosition, quoteSignal, truthy]

theorem zero_threshold_asymmetry_witness :
    (aggregatePositions (portA10 1)).map Position.signal = [Signal.SELL] ∧
    (aggregatePositions (portB10 1)).map Position.signal = [Signal.HOLD] :=
  ⟨(zero_threshold_asymmetry 1).1 (by norm_num), (zero_threshold_asymmetry 1).2⟩
